import Mathlib

/-!
Verification of the `nine` HTTP library (github.com/i9si-sistemas/nine):
path joining and route-group composition (pkg/server/route_group.go),
handler normalization (pkg/server/handler_validator.go), path-parameter
binding (pkg/server/context.go), and the server error envelope (root
package). Go values are shallowly embedded: strings are Lean `String`s,
slices are `List`s, `error` results are `Option`/`Except` values, and the
dynamic `any` handler values are an inductive type tagging the shapes the
type switch in `validateHandler` distinguishes.
-/

namespace Nine

/-! ## Definitions

### Path joining: `RouteGroup.fullPath` (pkg/server/route_group.go lines 84-94) -/

/-- Model of `stringx.String.TrimSuffix` (Go `strings.TrimSuffix`): remove one
occurrence of the suffix when the string ends with it, otherwise return the
string unchanged. -/
def trimSuffix (s suf : String) : String :=
  if suf.data.isSuffixOf s.data then
    String.mk (s.data.take (s.data.length - suf.data.length))
  else s

/-- Model of `stringx.String.TrimPrefix` (Go `strings.TrimPrefix`): remove one
occurrence of the prefix when the string starts with it, otherwise return the
string unchanged. -/
def trimPrefix (s pre : String) : String :=
  if pre.data.isPrefixOf s.data then String.mk (s.data.drop pre.data.length) else s

/-- Model of `RouteGroup.fullPath` with the group's `basePath` field passed
explicitly: a relative path that is `"/"` or `""` returns the base path
unchanged; otherwise the base's trailing slash and the path's leading slash
are stripped and the two parts are joined with a single `"/"` (the
`TrimSuffix/Concat/TrimPrefix` chain of the source). -/
def fullPath (basePath path : String) : String :=
  if path = "/" ∨ path = "" then basePath
  else trimSuffix basePath "/" ++ "/" ++ trimPrefix path "/"

/-- Boolean test that `pre` is a prefix of `s` (Go `strings.HasPrefix`). -/
def strStartsWith (s pre : String) : Bool := List.isPrefixOf pre.data s.data

/-- Boolean test that `suf` is a suffix of `s` (Go `strings.HasSuffix`). -/
def strEndsWith (s suf : String) : Bool := List.isSuffixOf suf.data s.data

/-- Character-list form of stripping one leading slash. -/
def dropSlashHead : List Char → List Char
  | [] => []
  | c :: t => if c = '/' then t else c :: t

/-- Character-list form of stripping one trailing slash. -/
def trimSlashLast : List Char → List Char
  | [] => []
  | [c] => if c = '/' then [] else [c]
  | c :: c' :: t => c :: trimSlashLast (c' :: t)

/-- List-level body of `trimSuffix · "/"`. -/
def trimSlashIf (l : List Char) : List Char :=
  if List.isSuffixOf ['/'] l then l.take (l.length - 1) else l

/-- List-level form of `fullPath`. -/
def joinSlash (a b : List Char) : List Char :=
  if b = ['/'] ∨ b = [] then a
  else trimSlashLast a ++ '/' :: dropSlashHead b

/-! ### Handlers and normalization (pkg/server/handler_validator.go) -/

/-- Request view (`*nine.Request`), kept abstract up to the data the claims
need: the decoded request path. -/
structure Request where
  path : String
deriving DecidableEq

/-- Response view (`*nine.Response`), kept abstract up to a status field. -/
structure Response where
  status : Nat
deriving DecidableEq

/-- Per-request context: the request and response views bundled, as the Go
`Context` struct embeds `*Request` and `*Response` (the opaque
`context.Context` field is not modelled). -/
structure Context where
  request : Request
  response : Response
deriving DecidableEq

/-- Canonical handler `func(req *Request, res *Response) error`: the outcome is
an error or the (possibly updated) response view. -/
abbrev Handler : Type := Request → Response → Except String Response

/-- Context-based handler `func(c *Context) error`. -/
abbrev CtxHandler : Type := Context → Except String Response

/-- Modelled from the spec: the pkg/server `HandlerWithContext` named type is
not among the sources (only `validateHandler` mentions it); per spec §4.1 it
is a capability exposing a context-based handler method. -/
abbrev HandlerWithContext : Type := CtxHandler

/-- Modelled from the spec: `HandlerWithContext.Handler(req, res)` adapts the
context function "to accept request/response views directly", building the
per-call context from the views it is invoked with. -/
def HandlerWithContext.Handler (h : HandlerWithContext) (_req : Request)
    (_res : Response) : Handler :=
  fun req res => h ⟨req, res⟩

/-- Dynamic `any` value supplied as a handler: the four shapes distinguished by
the type switch in `validateHandler` plus every other dynamic type, carried
with its reflected type name. -/
inductive HVal where
  | canonical (h : Handler)
  | withContext (h : HandlerWithContext)
  | rawFun (h : Request → Response → Except String Response)
  | ctxFun (h : Context → Except String Response)
  | other (typeName : String)

/-- Error text of the `default` branch of `validateHandler`. -/
def invalidHandlerMsg (typeName : String) : String :=
  "invalid handler type: " ++ typeName ++
    " - must be either nine.Handler or nine.HandlerWithContext"

/-- Model of `validateHandler` (handler_validator.go lines 10-28): each
recognized shape yields a canonical handler, anything else the
`invalid handler type` error naming the reflected type. -/
def validateHandler : HVal → Except String Handler
  | .canonical h => .ok h
  | .withContext h => .ok (fun req res => h.Handler req res req res)
  | .rawFun h => .ok h
  | .ctxFun h => .ok (fun req res => HandlerWithContext.Handler h req res req res)
  | .other t => .error (invalidHandlerMsg t)

/-- Recognized shapes: everything except the `default` branch. -/
def HVal.recognized : HVal → Bool
  | .other _ => false
  | _ => true

/-- Outcome of invoking the originally supplied handler value on an equivalent
request/response pair: context shapes run on the context assembled from the
views. -/
def HVal.invoke : HVal → Request → Response → Except String Response
  | .canonical h, req, res => h req res
  | .withContext h, req, res => h ⟨req, res⟩
  | .rawFun h, req, res => h req res
  | .ctxFun h, req, res => h ⟨req, res⟩
  | .other _, _, _ => .error "not a handler"

/-- The canonical handler `validateHandler` returns for a recognized shape
(junk for the `other` shape). -/
def HVal.canon : HVal → Handler
  | .canonical h => h
  | .withContext h => fun req res => h.Handler req res req res
  | .rawFun h => h
  | .ctxFun h => fun req res => HandlerWithContext.Handler h req res req res
  | .other _ => fun _ _ => .error "not a handler"

/-- Model of `ErrPutAHandler` (spec: `MissingHandler`), the root package's
`errors.New("put a handler")`. -/
def ErrPutAHandler : String := "put a handler"

/-- The middleware loop of `registerHandlers`, with the running zero-based
position made explicit. -/
def validateMiddlewaresFrom : Nat → List HVal → Except String (List Handler)
  | _, [] => .ok []
  | i, v :: vs =>
    match validateHandler v with
    | .error e => .error ("middleware at position " ++ toString i ++ ": " ++ e)
    | .ok m =>
      match validateMiddlewaresFrom (i + 1) vs with
      | .error e => .error e
      | .ok ms => .ok (m :: ms)

/-- Model of `registerHandlers` (handler_validator.go lines 31-53): empty list
fails with `ErrPutAHandler`; all but the last element are normalized as
middleware (position-tagged errors), the last as the final handler. -/
def registerHandlers : List HVal → Except String (Handler × List Handler)
  | [] => .error ErrPutAHandler
  | v :: vs =>
    match validateMiddlewaresFrom 0 ((v :: vs).dropLast) with
    | .error e => .error e
    | .ok ms =>
      match validateHandler ((v :: vs).getLast (List.cons_ne_nil v vs)) with
      | .error e => .error ("final handler: " ++ e)
      | .ok fh => .ok (fh, ms)

/-- One registered route of the root server's table. -/
structure Route where
  method : String
  pattern : String
  handler : Handler
  middlewares : List Handler

/-- Modelled from the spec: the pkg/server `Server.registerRoute` is not among
the sources; per spec §4.1/§7 it normalizes the batch through
`registerHandlers`, fails without touching the route table when that fails,
and otherwise appends one route built from the batch. -/
def registerRouteModel (routes : List Route) (method pat : String)
    (handlers : List HVal) : Except String (List Route) :=
  match registerHandlers handlers with
  | .error e => .error e
  | .ok (fh, ms) => .ok (routes ++ [⟨method, pat, fh, ms⟩])

/-! ### Route groups (pkg/server/route_group.go)

Every group reachable through the public API keeps the root server as its
`server` field (`Server.Group` passes the server, `RouteGroup.Group` passes
`g.server`, `RouteGroup.Route` calls `g.server.Group`), so the back-pointer
is left implicit and a group is its recorded base path and middleware
slice. -/

structure RouteGroup where
  basePath : String
  middlewares : List HVal

/-- Model of `(*Server).Group`: `NewRouteGroup(s, basePath, middlewares...)`. -/
def Server.Group (basePath : String) (middlewares : List HVal) : RouteGroup :=
  ⟨basePath, middlewares⟩

/-- Model of `(*RouteGroup).fullPath`. -/
def RouteGroup.fullPath (g : RouteGroup) (path : String) : String :=
  Nine.fullPath g.basePath path

/-- Model of `(*RouteGroup).Group`:
`NewRouteGroup(g.server, g.fullPath(basePath), append(g.middlewares, middlewares...)...)`. -/
def RouteGroup.Group (g : RouteGroup) (basePath : String)
    (middlewares : List HVal) : RouteGroup :=
  ⟨g.fullPath basePath, g.middlewares ++ middlewares⟩

/-- Model of `(*RouteGroup).Route`: the group handed to `fn` is
`g.server.Group(g.fullPath(basePath))` — created by the root server with no
middleware arguments. -/
def RouteGroup.Route (g : RouteGroup) (basePath : String) : RouteGroup :=
  Server.Group (g.fullPath basePath) []

/-- Model of `(*RouteGroup).routeHandlers`: `append(g.middlewares, handlers...)`. -/
def RouteGroup.routeHandlers (g : RouteGroup) (handlers : List HVal) : List HVal :=
  g.middlewares ++ handlers

/-- The registration call a group's per-verb method delegates to the root
server: HTTP method, joined path, and combined handler list. -/
structure RouteCall where
  method : String
  path : String
  handlers : List HVal

/-- Model of `(*RouteGroup).Get`: delegates
`g.server.Get(g.fullPath(path), g.routeHandlers(handlers...)...)`. -/
def RouteGroup.Get (g : RouteGroup) (path : String) (handlers : List HVal) : RouteCall :=
  ⟨"GET", g.fullPath path, g.routeHandlers handlers⟩

/-- Model of `(*RouteGroup).Post`. -/
def RouteGroup.Post (g : RouteGroup) (path : String) (handlers : List HVal) : RouteCall :=
  ⟨"POST", g.fullPath path, g.routeHandlers handlers⟩

/-- Model of `(*RouteGroup).Put`. -/
def RouteGroup.Put (g : RouteGroup) (path : String) (handlers : List HVal) : RouteCall :=
  ⟨"PUT", g.fullPath path, g.routeHandlers handlers⟩

/-- Model of `(*RouteGroup).Patch`. -/
def RouteGroup.Patch (g : RouteGroup) (path : String) (handlers : List HVal) : RouteCall :=
  ⟨"PATCH", g.fullPath path, g.routeHandlers handlers⟩

/-- Model of `(*RouteGroup).Delete`. -/
def RouteGroup.Delete (g : RouteGroup) (path : String) (handlers : List HVal) : RouteCall :=
  ⟨"DELETE", g.fullPath path, g.routeHandlers handlers⟩

/-- Iterated `RouteGroup.Group` calls: each list entry is the relative base
path and the middleware slice of one nesting level. -/
def nestGroups : RouteGroup → List (String × List HVal) → RouteGroup
  | g, [] => g
  | g, (p, ms) :: rest => nestGroups (g.Group p ms) rest

/-! ### Path parameter binding: `Context.ParamsParser` (pkg/server/context.go lines 39-166) -/

/-- One token of the translated pattern: a literal character, or the capturing
group `(?P<name>[^/]+)` both placeholder substitutions produce. -/
inductive PatTok where
  | lit (c : Char)
  | group (name : String)
deriving DecidableEq

/-- Combined effect of the two regex substitutions of `ParamsParser` on the
registered pattern, for patterns whose placeholder names contain no slash or
brace and whose literal text carries no regex metacharacters: `{name}` and
`:name` become capturing groups, everything else stays literal. -/
def tokenizeAux : Nat → List Char → List PatTok
  | 0, _ => []
  | _ + 1, [] => []
  | fuel + 1, c :: rest =>
    if c = '{' then
      let name := rest.takeWhile (fun d => d ≠ '}')
      if name.length < rest.length ∧ name ≠ [] ∧ ¬ '/' ∈ name then
        .group (String.mk name) :: tokenizeAux fuel (rest.drop (name.length + 1))
      else .lit c :: tokenizeAux fuel rest
    else if c = ':' then
      let name := rest.takeWhile (fun d => d ≠ '/')
      if name ≠ [] then
        .group (String.mk name) :: tokenizeAux fuel (rest.drop name.length)
      else .lit c :: tokenizeAux fuel rest
    else .lit c :: tokenizeAux fuel rest

/-- Tokenized form of a registered pattern. -/
def tokenize (pat : String) : List PatTok := tokenizeAux pat.data.length pat.data

/-- Captured submatches, in group order. -/
abbrev Captures : Type := List (String × String)

/-- Backtracking loop for one `[^/]+` group: capture lengths are tried longest
first, as Go's regexp engine does for a greedy quantifier. -/
def tryLens (n : String) (run after : List Char)
    (matchRest : List Char → Option Captures) : Nat → Option Captures
  | 0 => none
  | k + 1 =>
    match matchRest (run.drop (k + 1) ++ after) with
    | some caps => some ((n, String.mk (run.take (k + 1))) :: caps)
    | none => tryLens n run after matchRest k

/-- Match the token list against a prefix of the text (the regex is not
anchored, so trailing text may remain), collecting named captures. -/
def matchToks : List PatTok → List Char → Option Captures
  | [], _ => some []
  | .lit _ :: _, [] => none
  | .lit c :: ts, x :: xs => if x = c then matchToks ts xs else none
  | .group n :: ts, xs =>
    let run := xs.takeWhile (fun d => d ≠ '/')
    tryLens n run (xs.drop run.length) (fun rest => matchToks ts rest) run.length

/-- Model of `regex.FindStringSubmatch`: the leftmost starting position at
which the tokens match wins. -/
def findMatchFrom (ts : List PatTok) : List Char → Option Captures
  | [] => matchToks ts []
  | x :: xs =>
    match matchToks ts (x :: xs) with
    | some caps => some caps
    | none => findMatchFrom ts xs

/-- Go map assignment `params[name] = v`: replace an existing key, else
append. -/
def insertParam (m : Captures) (k v : String) : Captures :=
  let ml : List (String × String) := m
  if ml.any (fun p => p.1 == k) then
    ml.map (fun p => if p.1 = k then (k, v) else p)
  else ml ++ [(k, v)]

/-- The `params` map of `ParamsParser`, built from the captures in group
order. -/
def buildParams (caps : Captures) : Captures :=
  let cl : List (String × String) := caps
  cl.foldl (fun m p => insertParam m p.1 p.2) []

/-- Map lookup `params[paramName]`. -/
def lookupParam (m : Captures) (k : String) : Option String :=
  match (m : List (String × String)).find? (fun p => p.1 == k) with
  | some p => some p.2
  | none => none

/-- Go field kinds the binder switches on. -/
inductive GoKind where
  | str
  | int
  | int8
  | int16
  | int32
  | int64
  | uint
  | uint8
  | uint16
  | uint32
  | uint64
  | float32
  | float64
  | bool
  | unsupported (name : String)
deriving DecidableEq

/-- Stored field value. Floats keep the accepted numeral text: their bit-level
value lives in the out-of-scope strconv/IEEE layer. -/
inductive FieldVal where
  | vstr (s : String)
  | vint (z : Int)
  | vuint (n : Nat)
  | vfloat (numeral : String)
  | vbool (b : Bool)
deriving DecidableEq

/-- One field of the destination struct: declared name, `param` tag ("" when
absent, as `Tag.Get` returns), reflect's settability, kind and current
value. -/
structure Field where
  name : String
  paramTag : String
  canSet : Bool
  kind : GoKind
  value : FieldVal
deriving DecidableEq

/-- Decimal digit run to a number; `none` on empty input or a non-digit. -/
def parseDigits (l : List Char) : Option Nat :=
  if l = [] then none
  else
    l.foldl
      (fun acc c =>
        match acc with
        | none => none
        | some n => if c.isDigit then some (n * 10 + (c.toNat - '0'.toNat)) else none)
      (some 0)

/-- Model of `strconv.ParseInt(s, 10, bits)` (and `Atoi` at 64 bits): optional
sign, decimal digits, two's-complement range check. -/
def parseIntBits (s : String) (bits : Nat) : Option Int :=
  let signDigits : Bool × List Char :=
    match s.data with
    | '-' :: t => (true, t)
    | '+' :: t => (false, t)
    | t => (false, t)
  match parseDigits signDigits.2 with
  | none => none
  | some n =>
    let v : Int := if signDigits.1 then -(n : Int) else (n : Int)
    if -(2 ^ (bits - 1) : Int) ≤ v ∧ v < 2 ^ (bits - 1) then some v else none

/-- Model of `strconv.ParseUint(s, 10, bits)`: decimal digits, no sign, range
check (`bits = 0` is already resolved to 64 at the call sites). -/
def parseUintBits (s : String) (bits : Nat) : Option Nat :=
  match parseDigits s.data with
  | none => none
  | some n => if n < 2 ^ bits then some n else none

/-- Model of `strconv.ParseBool`. -/
def parseBoolGo (s : String) : Option Bool :=
  if s = "1" ∨ s = "t" ∨ s = "T" ∨ s = "TRUE" ∨ s = "true" ∨ s = "True" then some true
  else if s = "0" ∨ s = "f" ∨ s = "F" ∨ s = "FALSE" ∨ s = "false" ∨ s = "False" then
    some false
  else none

/-- Modelled from the spec: `strconv.ParseFloat` of the out-of-scope standard
library, reduced to the syntactic shape `[sign] digits [. digits]` with at
least one digit; the accepted numeral is recorded as the field value. -/
def parseFloatGo (s : String) : Option String :=
  let body : List Char :=
    match s.data with
    | '-' :: t => t
    | '+' :: t => t
    | t => t
  let ip := body.takeWhile Char.isDigit
  let rest := body.drop ip.length
  match rest with
  | [] => if ip ≠ [] then some s else none
  | '.' :: fr => if (ip ≠ [] ∨ fr ≠ []) ∧ fr.all Char.isDigit then some s else none
  | _ => none

/-- Printed name of a field kind (`field.Kind()` in the error text). -/
def goKindName : GoKind → String
  | .str => "string"
  | .int => "int"
  | .int8 => "int8"
  | .int16 => "int16"
  | .int32 => "int32"
  | .int64 => "int64"
  | .uint => "uint"
  | .uint8 => "uint8"
  | .uint16 => "uint16"
  | .uint32 => "uint32"
  | .uint64 => "uint64"
  | .float32 => "float32"
  | .float64 => "float64"
  | .bool => "bool"
  | .unsupported n => n

/-- The kind switch of `ParamsParser`: convert one captured value to the
field's kind, or fail with the source's error text. -/
def coerceParam (kind : GoKind) (paramValue : String) : Except String FieldVal :=
  match kind with
  | .str => .ok (.vstr paramValue)
  | .int =>
    match parseIntBits paramValue 64 with
    | some z => .ok (.vint z)
    | none => .error ("erro ao converter '" ++ paramValue ++ "' para int")
  | .int8 =>
    match parseIntBits paramValue 8 with
    | some z => .ok (.vint z)
    | none => .error ("erro ao converter '" ++ paramValue ++ "' para int8")
  | .int16 =>
    match parseIntBits paramValue 16 with
    | some z => .ok (.vint z)
    | none => .error ("erro ao converter '" ++ paramValue ++ "' para int16")
  | .int32 =>
    match parseIntBits paramValue 32 with
    | some z => .ok (.vint z)
    | none => .error ("erro ao converter '" ++ paramValue ++ "' para int32")
  | .int64 =>
    match parseIntBits paramValue 64 with
    | some z => .ok (.vint z)
    | none => .error ("erro ao converter '" ++ paramValue ++ "' para int64")
  | .uint =>
    match parseUintBits paramValue 64 with
    | some n => .ok (.vuint n)
    | none => .error ("erro ao converter '" ++ paramValue ++ "' para uint")
  | .uint8 =>
    match parseUintBits paramValue 8 with
    | some n => .ok (.vuint n)
    | none => .error ("erro ao converter '" ++ paramValue ++ "' para uint8")
  | .uint16 =>
    match parseUintBits paramValue 16 with
    | some n => .ok (.vuint n)
    | none => .error ("erro ao converter '" ++ paramValue ++ "' para uint16")
  | .uint32 =>
    match parseUintBits paramValue 32 with
    | some n => .ok (.vuint n)
    | none => .error ("erro ao converter '" ++ paramValue ++ "' para uint32")
  | .uint64 =>
    match parseUintBits paramValue 64 with
    | some n => .ok (.vuint n)
    | none => .error ("erro ao converter '" ++ paramValue ++ "' para uint64")
  | .float32 =>
    match parseFloatGo paramValue with
    | some f => .ok (.vfloat f)
    | none => .error ("erro ao converter '" ++ paramValue ++ "' para float32")
  | .float64 =>
    match parseFloatGo paramValue with
    | some f => .ok (.vfloat f)
    | none => .error ("erro ao converter '" ++ paramValue ++ "' para float64")
  | .bool =>
    match parseBoolGo paramValue with
    | some b => .ok (.vbool b)
    | none => .error ("erro ao converter '" ++ paramValue ++ "' para bool")
  | .unsupported n => .error ("tipo não suportado: " ++ n)

/-- The field loop of `ParamsParser`: lookup key is the `param` tag or the
declared name; a missing key leaves the field untouched; an unsettable field
is silently skipped; a conversion failure stops the loop with its error,
leaving the remaining fields (and the failing one) untouched. -/
def bindFields : List Field → Captures → List Field × Option String
  | [], _ => ([], none)
  | f :: fs, params =>
    let key := if f.paramTag = "" then f.name else f.paramTag
    match lookupParam params key with
    | none =>
      let r := bindFields fs params
      (f :: r.1, r.2)
    | some v =>
      if f.canSet then
        match coerceParam f.kind v with
        | .error e => (f :: fs, some e)
        | .ok val =>
          let r := bindFields fs params
          ({ f with value := val } :: r.1, r.2)
      else
        let r := bindFields fs params
        (f :: r.1, r.2)

/-- Model of `Context.ParamsParser` (context.go lines 39-166): translate the
registered pattern, match it against the (already percent-decoded) request
path, build the params map — empty when the regex does not match — and run
the field loop. Returns the final fields and the error, `none` on success. -/
def ParamsParser (pat path : String) (fields : List Field) : List Field × Option String :=
  let toks := tokenize pat
  let params :=
    match findMatchFrom toks path.data with
    | some caps => buildParams caps
    | none => []
  bindFields fields params

/-- Hexadecimal digit value. -/
def hexVal (c : Char) : Option Nat :=
  if '0' ≤ c ∧ c ≤ '9' then some (c.toNat - '0'.toNat)
  else if 'a' ≤ c ∧ c ≤ 'f' then some (c.toNat - 'a'.toNat + 10)
  else if 'A' ≤ c ∧ c ≤ 'F' then some (c.toNat - 'A'.toNat + 10)
  else none

/-- Percent-decoding step with explicit fuel. -/
def percentDecodeAux : Nat → List Char → List Char
  | 0, _ => []
  | _ + 1, [] => []
  | fuel + 1, '%' :: a :: b :: rest =>
    match hexVal a, hexVal b with
    | some ha, some hb => Char.ofNat (ha * 16 + hb) :: percentDecodeAux fuel rest
    | _, _ => '%' :: percentDecodeAux fuel (a :: b :: rest)
  | fuel + 1, c :: rest => c :: percentDecodeAux fuel rest

/-- Modelled from the spec: the percent-decoding net/http applies to the
request target before `ParamsParser` reads `URL.Path`. -/
def percentDecode (s : String) : String :=
  String.mk (percentDecodeAux s.data.length s.data)

/-! ### Server error envelope (root package `server.go`, exercised by
server_test.go lines 94-112) -/

/-- Recorded state of the `http.ResponseWriter`: status line, the
`Content-Type` header, accumulated body and the number of status lines
written. A body write with no status line yet first writes 200, as the
net/http writer does. -/
structure RecorderState where
  status : Int
  wroteHeader : Bool
  contentType : String
  body : String
  headerWrites : Nat
deriving DecidableEq

/-- Fresh recorder (`httptest.NewRecorder`). -/
def newRecorder : RecorderState := ⟨200, false, "", "", 0⟩

/-- Model of `w.WriteHeader(code)`: only the first call takes effect. -/
def writeHeader (w : RecorderState) (code : Int) : RecorderState :=
  if w.wroteHeader then w
  else { w with status := code, wroteHeader := true, headerWrites := w.headerWrites + 1 }

/-- Model of `w.Write(b)`: an implicit 200 status line precedes the first
body write if none was written. -/
def writeBody (w : RecorderState) (s : String) : RecorderState :=
  let w' := if w.wroteHeader then w else writeHeader w 200
  { w' with body := w'.body ++ s }

/-- Model of `w.Header().Set("Content-Type", v)`. -/
def setContentType (w : RecorderState) (v : String) : RecorderState :=
  { w with contentType := v }

/-- Model of `http.Error(w, msg, code)`: plain-text content type, the given
status, and the message followed by a newline. -/
def httpErrorWrite (w : RecorderState) (msg : String) (code : Int) : RecorderState :=
  writeBody (writeHeader (setContentType w "text/plain; charset=utf-8") code) (msg ++ "\n")

/-- Model of `nine.ServerError`: status code, content type, wrapped error
(`none` for a nil `Err`). -/
structure ServerError where
  statusCode : Int
  contentType : String
  err : Option String
deriving DecidableEq

/-- Serialization of `JSON{"err": msg}.Bytes()` for messages that need no JSON
escaping (the codec itself is out of scope per the spec). -/
def jsonErrBody (msg : String) : String := "\x7b\"err\":\"" ++ msg ++ "\"\x7d"

/-- Model of `(*ServerError).ServeHTTP`: nothing for a nil error; for the JSON
content type the envelope with the error's own status (when ≥ 100); for any
other content type `http.Error` with the raw message and the error's
status. -/
def ServerError.serveHTTP (e : ServerError) (w : RecorderState) : RecorderState :=
  match e.err with
  | none => w
  | some msg =>
    let w' := setContentType w e.contentType
    if e.contentType = "application/json" then
      let w'' := if 100 ≤ e.statusCode then writeHeader w' e.statusCode else w'
      writeBody w'' (jsonErrBody msg)
    else httpErrorWrite w' msg e.statusCode

/-- A handler's error outcome, as the type assertion in
`httpHandler`/`httpMiddleware` splits it: a (non-nil) `*ServerError`, or any
other error with its message. -/
inductive HandlerFailure where
  | server (e : ServerError)
  | plain (msg : String)
deriving DecidableEq

/-- Error branch of `httpHandler` and `httpMiddleware` (root package): a
tagged server error serves itself, any other error becomes
`http.Error(w, err.Error(), 500)`; a nil error writes nothing here. -/
def httpHandlerOnError : Option HandlerFailure → RecorderState → RecorderState
  | none, w => w
  | some (.server e), w => e.serveHTTP w
  | some (.plain msg), w => httpErrorWrite w msg 500

/-! ### Sample values used by witnesses and counterexamples -/

/-- Sample canonical handler: succeed, return the response unchanged. -/
def hOk : Handler := fun _ res => .ok res

/-- Sample context handler: succeed with the context's response view. -/
def hCtxOk : CtxHandler := fun c => .ok c.response

/-- Sample failing handler. -/
def hFail : Handler := fun _ _ => .error "boom"

end Nine

/-! ## Lemmas about path joining -/

namespace Nine

theorem isPrefixOf_slash_cons (a : Char) (z : List Char) :
    List.isPrefixOf ['/'] (a :: z) = (a == '/') := by
  show (('/' == a) && List.isPrefixOf [] z) = (a == '/')
  simp [List.isPrefixOf, beq_iff_eq, eq_comm]

theorem isPrefixOf_slash_append (m w : List Char) (h : m ≠ []) :
    List.isPrefixOf ['/'] (m ++ w) = List.isPrefixOf ['/'] m := by
  cases m with
  | nil => exact absurd rfl h
  | cons a b => simp [isPrefixOf_slash_cons]

theorem isSuffixOf_slash_cons₂ (c c' : Char) (t : List Char) :
    List.isSuffixOf ['/'] (c :: c' :: t) = List.isSuffixOf ['/'] (c' :: t) := by
  show List.isPrefixOf ['/'] (c :: c' :: t).reverse
      = List.isPrefixOf ['/'] (c' :: t).reverse
  rw [show (c :: c' :: t).reverse = (c' :: t).reverse ++ [c] by simp,
    isPrefixOf_slash_append _ _ (by simp)]

theorem isSuffixOf_slash_singleton (c : Char) :
    List.isSuffixOf ['/'] [c] = (c == '/') := by
  show List.isPrefixOf ['/'] [c].reverse = (c == '/')
  simp [isPrefixOf_slash_cons]

theorem trimSlashIf_eq : ∀ l, trimSlashIf l = trimSlashLast l
  | [] => by simp [trimSlashIf, List.isSuffixOf, List.isPrefixOf, trimSlashLast]
  | [c] => by
    unfold trimSlashIf
    rw [isSuffixOf_slash_singleton]
    by_cases hc : c = '/'
    · simp [hc, trimSlashLast]
    · simp [hc, trimSlashLast]
  | c :: c' :: t => by
    have ih := trimSlashIf_eq (c' :: t)
    unfold trimSlashIf at ih ⊢
    rw [isSuffixOf_slash_cons₂]
    by_cases hsuf : List.isSuffixOf ['/'] (c' :: t) = true
    · rw [if_pos hsuf] at ih ⊢
      have htake : (c :: c' :: t).take ((c :: c' :: t).length - 1)
          = c :: ((c' :: t).take ((c' :: t).length - 1)) := by
        simp [List.take_cons]
      rw [htake, ih]
      rfl
    · rw [if_neg hsuf] at ih ⊢
      show c :: c' :: t = trimSlashLast (c :: c' :: t)
      rw [show trimSlashLast (c :: c' :: t) = c :: trimSlashLast (c' :: t) from rfl,
        ← ih]

theorem trimSuffix_slash_data (s : String) :
    (trimSuffix s "/").data = trimSlashLast s.data := by
  rw [← trimSlashIf_eq]
  cases s with
  | mk l =>
    show (if List.isSuffixOf ['/'] l = true then
        String.mk (l.take (l.length - 1)) else String.mk l).data = trimSlashIf l
    unfold trimSlashIf
    by_cases h : List.isSuffixOf ['/'] l = true
    · simp [h]
    · simp [h]

theorem trimPrefix_slash_data (s : String) :
    (trimPrefix s "/").data = dropSlashHead s.data := by
  cases s with
  | mk l =>
    cases l with
    | nil => simp [trimPrefix, dropSlashHead, List.isPrefixOf]
    | cons c t =>
      show (if List.isPrefixOf ['/'] (c :: t) = true then
          String.mk ((c :: t).drop 1) else String.mk (c :: t)).data
        = dropSlashHead (c :: t)
      rw [isPrefixOf_slash_cons]
      unfold dropSlashHead
      by_cases hc : c = '/'
      · simp [hc]
      · simp [hc]

theorem trimSlashLast_cons_ne (x : Char) (m : List Char) (h : m ≠ []) :
    trimSlashLast (x :: m) = x :: trimSlashLast m := by
  cases m with
  | nil => exact absurd rfl h
  | cons a b => rfl

theorem dropSlashHead_nil_iff (b : List Char) :
    dropSlashHead b = [] ↔ b = [] ∨ b = ['/'] := by
  cases b with
  | nil => simp [dropSlashHead]
  | cons c t =>
    by_cases hc : c = '/'
    · simp [dropSlashHead, hc]
    · simp [dropSlashHead, hc]

theorem trimSlashLast_nil_iff (b : List Char) :
    trimSlashLast b = [] ↔ b = [] ∨ b = ['/'] := by
  match b with
  | [] => simp [trimSlashLast]
  | [c] =>
    by_cases hc : c = '/'
    · simp [trimSlashLast, hc]
    · simp [trimSlashLast, hc]
  | c :: c' :: t =>
    rw [trimSlashLast_cons_ne _ _ (by simp)]
    simp

theorem trimSlashLast_append_slash (X Y : List Char) (h : Y ≠ []) :
    trimSlashLast (X ++ '/' :: Y) = X ++ '/' :: trimSlashLast Y := by
  induction X with
  | nil => simpa using trimSlashLast_cons_ne '/' Y h
  | cons x X ih =>
    have : (X ++ '/' :: Y) ≠ [] := by simp
    rw [List.cons_append, trimSlashLast_cons_ne x _ this, ih, List.cons_append]

theorem dropSlashHead_append (B w : List Char) (h : B ≠ []) :
    dropSlashHead (B ++ w) = dropSlashHead B ++ w := by
  cases B with
  | nil => exact absurd rfl h
  | cons b bs =>
    by_cases hb : b = '/'
    · simp [dropSlashHead, hb]
    · simp [dropSlashHead, hb]

theorem trimSlash_comm (b : List Char) (h : b ≠ ['/']) :
    trimSlashLast (dropSlashHead b) = dropSlashHead (trimSlashLast b) := by
  match b with
  | [] => rfl
  | [c] =>
    have hc : c ≠ '/' := fun hc => h (by rw [hc])
    simp [dropSlashHead, trimSlashLast, hc]
  | c :: c' :: t =>
    have hstep : trimSlashLast (c :: c' :: t) = c :: trimSlashLast (c' :: t) :=
      trimSlashLast_cons_ne c (c' :: t) (by simp)
    rw [hstep]
    by_cases hc : c = '/'
    · simp [dropSlashHead, hc]
    · simp [dropSlashHead, hc, hstep]

theorem append_slash_not_special (X Y : List Char) (h : Y ≠ []) :
    ¬(X ++ '/' :: Y = ['/'] ∨ X ++ '/' :: Y = []) := by
  intro hor
  cases hor with
  | inl h1 =>
    cases X with
    | nil =>
      simp only [List.nil_append, List.cons.injEq] at h1
      exact h h1.2
    | cons x X' =>
      simp only [List.cons_append, List.cons.injEq] at h1
      exact absurd h1.2 (by simp)
  | inr h2 => simp at h2

theorem joinSlash_special (a b : List Char) (h : b = ['/'] ∨ b = []) :
    joinSlash a b = a := by
  unfold joinSlash
  rw [if_pos h]

theorem joinSlash_expand (a b : List Char) (h : ¬(b = ['/'] ∨ b = [])) :
    joinSlash a b = trimSlashLast a ++ '/' :: dropSlashHead b := by
  unfold joinSlash
  rw [if_neg h]

theorem joinSlash_assoc (a b c : List Char) :
    joinSlash (joinSlash a b) c = joinSlash a (joinSlash b c) := by
  by_cases hc : c = ['/'] ∨ c = []
  · rw [joinSlash_special (joinSlash a b) c hc, joinSlash_special b c hc]
  · have hcH : dropSlashHead c ≠ [] := fun h0 =>
      hc (Or.symm ((dropSlashHead_nil_iff c).mp h0))
    by_cases hb : b = ['/'] ∨ b = []
    · have hbz : trimSlashLast b = [] :=
        (trimSlashLast_nil_iff b).mpr (Or.symm hb)
      have h1 : joinSlash b c = '/' :: dropSlashHead c := by
        rw [joinSlash_expand b c hc, hbz]
        rfl
      have h2 : ¬('/' :: dropSlashHead c = ['/'] ∨ '/' :: dropSlashHead c = []) :=
        append_slash_not_special [] (dropSlashHead c) hcH
      rw [joinSlash_special a b hb, h1, joinSlash_expand a c hc,
        joinSlash_expand a ('/' :: dropSlashHead c) h2]
      simp [dropSlashHead]
    · have hbS : trimSlashLast b ≠ [] := fun h0 =>
        hb (Or.symm ((trimSlashLast_nil_iff b).mp h0))
      have hbH : dropSlashHead b ≠ [] := fun h0 =>
        hb (Or.symm ((dropSlashHead_nil_iff b).mp h0))
      have hbc_ns : ¬(joinSlash b c = ['/'] ∨ joinSlash b c = []) := by
        rw [joinSlash_expand b c hc]
        exact append_slash_not_special _ _ hcH
      rw [joinSlash_expand (joinSlash a b) c hc, joinSlash_expand a b hb,
        joinSlash_expand a (joinSlash b c) hbc_ns, joinSlash_expand b c hc,
        trimSlashLast_append_slash _ _ hbH,
        dropSlashHead_append _ _ hbS,
        trimSlash_comm b (fun h0 => hb (Or.inl h0))]
      simp

theorem string_data_eq_iff (s t : String) : s = t ↔ s.data = t.data :=
  ⟨fun h => h ▸ rfl, fun h => by cases s; cases t; exact congrArg String.mk h⟩

theorem fullPath_data (x y : String) :
    (fullPath x y).data = joinSlash x.data y.data := by
  by_cases h : y = "/" ∨ y = ""
  · have h' : y.data = ['/'] ∨ y.data = [] := by
      cases h with
      | inl h => rw [h]; exact Or.inl rfl
      | inr h => rw [h]; exact Or.inr rfl
    unfold fullPath joinSlash
    rw [if_pos h, if_pos h']
  · have h' : ¬(y.data = ['/'] ∨ y.data = []) := by
      intro hd
      apply h
      cases hd with
      | inl hd => exact Or.inl ((string_data_eq_iff y "/").mpr hd)
      | inr hd => exact Or.inr ((string_data_eq_iff y "").mpr hd)
    unfold fullPath joinSlash
    rw [if_neg h, if_neg h']
    rw [String.data_append, String.data_append, trimSuffix_slash_data,
      trimPrefix_slash_data]
    simp

theorem fullPath_assoc (a b c : String) :
    fullPath (fullPath a b) c = fullPath a (fullPath b c) := by
  apply (string_data_eq_iff _ _).mpr
  rw [fullPath_data, fullPath_data, fullPath_data, fullPath_data, joinSlash_assoc]

theorem noDoubleHead (l : List Char) (h : List.isPrefixOf ['/', '/'] l = false) :
    List.isPrefixOf ['/'] (dropSlashHead l) = false := by
  cases l with
  | nil => rfl
  | cons c t =>
    by_cases hc : c = '/'
    · subst hc
      have ht : List.isPrefixOf ['/'] t = false := by
        simpa [List.isPrefixOf] using h
      simpa [dropSlashHead] using ht
    · simp [dropSlashHead, hc, isPrefixOf_slash_cons]

theorem trimSlashLast_reverse : ∀ l : List Char,
    trimSlashLast l = (dropSlashHead l.reverse).reverse
  | [] => rfl
  | [c] => by
    by_cases hc : c = '/' <;> simp [trimSlashLast, dropSlashHead, hc]
  | c :: c' :: t => by
    have ih := trimSlashLast_reverse (c' :: t)
    rw [trimSlashLast_cons_ne _ _ (by simp), ih,
      show (c :: c' :: t).reverse = (c' :: t).reverse ++ [c] by simp,
      dropSlashHead_append _ _ (by simp)]
    simp

theorem noDoubleLast (l : List Char) (h : List.isSuffixOf ['/', '/'] l = false) :
    List.isSuffixOf ['/'] (trimSlashLast l) = false := by
  have h' : List.isPrefixOf ['/', '/'] l.reverse = false := h
  show List.isPrefixOf ['/'] (trimSlashLast l).reverse = false
  rw [trimSlashLast_reverse, List.reverse_reverse]
  exact noDoubleHead l.reverse h'

/-- C5: path joining via `fullPath` is associative; for a non-trivial relative
path the result is the base with its trailing slash stripped, a single
separating slash, and the relative path with its leading slash stripped, and
the seam carries exactly one slash whenever neither side brings a doubled
slash of its own; joining "/account", "/profile" and "/:name" in every slash
variant yields exactly "/account/profile/:name"; a relative path that is
empty or exactly "/" returns the base path unchanged. -/
theorem fullPath_spec :
    (∀ a b c : String, fullPath (fullPath a b) c = fullPath a (fullPath b c))
    ∧ (∀ base path : String, path ≠ "/" → path ≠ "" →
        fullPath base path = trimSuffix base "/" ++ "/" ++ trimPrefix path "/")
    ∧ (∀ base : String, strEndsWith base "//" = false →
        strEndsWith (trimSuffix base "/") "/" = false)
    ∧ (∀ path : String, strStartsWith path "//" = false →
        strStartsWith (trimPrefix path "/") "/" = false)
    ∧ (∀ b₁ ∈ ["/account", "/account/"],
       ∀ b₂ ∈ ["/profile", "profile", "/profile/", "profile/"],
       ∀ b₃ ∈ ["/:name", ":name"],
        fullPath (fullPath b₁ b₂) b₃ = "/account/profile/:name")
    ∧ (∀ base : String, fullPath base "" = base ∧ fullPath base "/" = base) := by
  refine ⟨fullPath_assoc, ?_, ?_, ?_, ?_, ?_⟩
  · intro base path h1 h2
    unfold fullPath
    rw [if_neg (by tauto)]
  · intro base h
    show List.isSuffixOf ['/'] (trimSuffix base "/").data = false
    rw [trimSuffix_slash_data]
    exact noDoubleLast base.data h
  · intro path h
    show List.isPrefixOf ['/'] (trimPrefix path "/").data = false
    rw [trimPrefix_slash_data]
    exact noDoubleHead path.data h
  · decide
  · intro base
    constructor
    · unfold fullPath
      rw [if_pos (Or.inr rfl)]
    · unfold fullPath
      rw [if_pos (Or.inl rfl)]

/-- Witness for C5 at concrete paths. -/
theorem fullPath_spec_witness :
    fullPath (fullPath "/account" "profile/") "/:name"
      = fullPath "/account" (fullPath "profile/" "/:name")
    ∧ fullPath "/api/" "v1" = trimSuffix "/api/" "/" ++ "/" ++ trimPrefix "v1" "/"
    ∧ strEndsWith (trimSuffix "/api/" "/") "/" = false
    ∧ strStartsWith (trimPrefix "/v1" "/") "/" = false
    ∧ fullPath (fullPath "/account/" "/profile/") ":name" = "/account/profile/:name"
    ∧ fullPath "/acc" "" = "/acc" :=
  ⟨fullPath_spec.1 "/account" "profile/" "/:name",
   fullPath_spec.2.1 "/api/" "v1" (by decide) (by decide),
   fullPath_spec.2.2.1 "/api/" (by decide),
   fullPath_spec.2.2.2.1 "/v1" (by decide),
   fullPath_spec.2.2.2.2.1 "/account/" (by decide) "/profile/" (by decide)
     ":name" (by decide),
   (fullPath_spec.2.2.2.2.2 "/acc").1⟩

/-! ## Handler normalization: C3 and C6 -/

theorem validateHandler_ok_of_recognized (v : HVal) (h : v.recognized = true) :
    validateHandler v = .ok v.canon := by
  cases v with
  | canonical h => rfl
  | withContext h => rfl
  | rawFun h => rfl
  | ctxFun h => rfl
  | other t => simp [HVal.recognized] at h

/-- C3: for each of the four recognized handler shapes, `validateHandler`
succeeds, and the canonical handler it returns produces, at every
request/response pair, the same outcome as invoking the originally supplied
handler on the equivalent views. -/
theorem validateHandler_shape_equiv (v : HVal) (h : v.recognized = true) :
    validateHandler v = .ok v.canon
    ∧ ∀ req res, v.canon req res = v.invoke req res := by
  refine ⟨validateHandler_ok_of_recognized v h, ?_⟩
  cases v with
  | canonical h => intro req res; rfl
  | withContext h => intro req res; rfl
  | rawFun h => intro req res; rfl
  | ctxFun h => intro req res; rfl
  | other t => simp [HVal.recognized] at h

/-- Witness for C3: the context-function shape at a concrete handler. -/
theorem validateHandler_shape_equiv_witness :
    (HVal.ctxFun hCtxOk).recognized = true
    ∧ (validateHandler (.ctxFun hCtxOk) = .ok (HVal.ctxFun hCtxOk).canon
      ∧ ∀ req res, (HVal.ctxFun hCtxOk).canon req res
          = (HVal.ctxFun hCtxOk).invoke req res) :=
  ⟨rfl, validateHandler_shape_equiv (.ctxFun hCtxOk) rfl⟩

/-- C6: `validateHandler` succeeds exactly on the four recognized shapes, and
on any other dynamic type fails with the error that names the offending
type. -/
theorem validateHandler_error_spec :
    (∀ v : HVal, (validateHandler v).isOk = v.recognized)
    ∧ ∀ t : String, validateHandler (.other t)
        = .error ("invalid handler type: " ++ t
            ++ " - must be either nine.Handler or nine.HandlerWithContext") := by
  constructor
  · intro v
    cases v <;> rfl
  · intro t
    rfl

/-! ## Batch normalization: C4 -/

theorem validateMiddlewaresFrom_ok (i : Nat) (l : List HVal)
    (h : ∀ v ∈ l, v.recognized = true) :
    validateMiddlewaresFrom i l = .ok (l.map HVal.canon) := by
  induction l generalizing i with
  | nil => rfl
  | cons v vs ih =>
    have hv := validateHandler_ok_of_recognized v (h v (by simp))
    simp only [validateMiddlewaresFrom, hv, ih (i + 1) (fun w hw => h w (by simp [hw])),
      List.map_cons]

theorem validateMiddlewaresFrom_err (i : Nat) (pre : List HVal) (t : String)
    (post : List HVal) (h : ∀ v ∈ pre, v.recognized = true) :
    validateMiddlewaresFrom i (pre ++ .other t :: post)
      = .error ("middleware at position " ++ toString (i + pre.length) ++ ": "
          ++ invalidHandlerMsg t) := by
  induction pre generalizing i with
  | nil =>
    simp only [List.nil_append, validateMiddlewaresFrom, validateHandler,
      List.length_nil, Nat.add_zero]
  | cons v vs ih =>
    have hv := validateHandler_ok_of_recognized v (h v (by simp))
    have harith : (i + 1) + vs.length = i + (vs.length + 1) := by omega
    simp only [List.cons_append, validateMiddlewaresFrom, hv, List.append_eq,
      ih (i + 1) (fun w hw => h w (by simp [hw])), harith, List.length_cons]

theorem registerHandlers_eq_of_ne (l : List HVal) (hne : l ≠ []) :
    registerHandlers l =
      match validateMiddlewaresFrom 0 l.dropLast with
      | .error e => .error e
      | .ok ms =>
        match validateHandler (l.getLast hne) with
        | .error e => .error ("final handler: " ++ e)
        | .ok fh => .ok (fh, ms) := by
  cases l with
  | nil => exact absurd rfl hne
  | cons v vs => rfl

theorem string_head_append (s t : String) (c : Char) (h : s.data.head? = some c) :
    (s ++ t).data.head? = some c := by
  rw [String.data_append]
  cases hs : s.data with
  | nil => rw [hs] at h; simp at h
  | cons a m => rw [hs] at h; simpa using h

theorem validateMiddlewaresFrom_err_head (i : Nat) (l : List HVal) (e : String)
    (h : validateMiddlewaresFrom i l = .error e) : e.data.head? = some 'm' := by
  induction l generalizing i with
  | nil => simp [validateMiddlewaresFrom] at h
  | cons v vs ih =>
    unfold validateMiddlewaresFrom at h
    cases hv : validateHandler v with
    | error ev =>
      rw [hv] at h
      simp only [Except.error.injEq] at h
      subst h
      exact string_head_append _ _ 'm'
        (string_head_append _ _ 'm' (string_head_append _ _ 'm' rfl))
    | ok m =>
      rw [hv] at h
      cases hrec : validateMiddlewaresFrom (i + 1) vs with
      | error e' =>
        rw [hrec] at h
        simp only [Except.error.injEq] at h
        subst h
        exact ih (i + 1) hrec
      | ok ms =>
        rw [hrec] at h
        simp at h

theorem registerHandlers_mid_err (pre : List HVal) (t : String) (post : List HVal)
    (hpre : ∀ v ∈ pre, v.recognized = true) (hpost : post ≠ []) :
    registerHandlers (pre ++ .other t :: post)
      = .error ("middleware at position " ++ toString pre.length ++ ": "
          ++ invalidHandlerMsg t) := by
  obtain ⟨p, ps, rfl⟩ : ∃ p ps, post = p :: ps := by
    cases post with
    | nil => exact absurd rfl hpost
    | cons p ps => exact ⟨p, ps, rfl⟩
  rw [registerHandlers_eq_of_ne _ (by simp)]
  rw [show (pre ++ HVal.other t :: p :: ps).dropLast
      = pre ++ HVal.other t :: (p :: ps).dropLast from List.dropLast_append_cons]
  rw [show (HVal.other t :: (p :: ps).dropLast : List HVal)
      = HVal.other t :: (p :: ps).dropLast from rfl]
  rw [validateMiddlewaresFrom_err 0 pre t ((p :: ps).dropLast) hpre]
  simp only [Nat.zero_add]

theorem registerHandlers_final_err (pre : List HVal) (t : String)
    (hpre : ∀ v ∈ pre, v.recognized = true) :
    registerHandlers (pre ++ [.other t])
      = .error ("final handler: " ++ invalidHandlerMsg t) := by
  rw [registerHandlers_eq_of_ne _ (by simp)]
  simp only [List.dropLast_concat, validateMiddlewaresFrom_ok 0 pre hpre,
    List.getLast_append_singleton, validateHandler]

theorem registerHandlers_all_ok (v : HVal) (vs : List HVal)
    (h : ∀ w ∈ v :: vs, w.recognized = true) :
    registerHandlers (v :: vs)
      = .ok (((v :: vs).getLast (List.cons_ne_nil v vs)).canon,
          (v :: vs).dropLast.map HVal.canon) := by
  rw [registerHandlers_eq_of_ne _ (List.cons_ne_nil v vs)]
  rw [validateMiddlewaresFrom_ok 0 _ (fun w hw => h w (List.dropLast_subset _ hw))]
  rw [validateHandler_ok_of_recognized _ (h _ (List.getLast_mem (List.cons_ne_nil v vs)))]

theorem registerHandlers_cons_ne_missing (v : HVal) (vs : List HVal) :
    registerHandlers (v :: vs) ≠ .error ErrPutAHandler := by
  rw [registerHandlers_eq_of_ne _ (List.cons_ne_nil v vs)]
  cases hm : validateMiddlewaresFrom 0 ((v :: vs).dropLast) with
  | error e =>
    intro hcontra
    have hred : (Except.error e : Except String (Handler × List Handler))
        = .error ErrPutAHandler := hcontra
    simp only [Except.error.injEq] at hred
    have hhead := validateMiddlewaresFrom_err_head _ _ _ hm
    rw [hred] at hhead
    simp [ErrPutAHandler] at hhead
  | ok ms =>
    cases hv : validateHandler ((v :: vs).getLast (List.cons_ne_nil v vs)) with
    | error e' =>
      intro hcontra
      have hred : (Except.error ("final handler: " ++ e')
          : Except String (Handler × List Handler)) = .error ErrPutAHandler := hcontra
      simp only [Except.error.injEq] at hred
      have hhead : ("final handler: " ++ e').data.head? = some 'f' :=
        string_head_append _ _ 'f' rfl
      rw [hred] at hhead
      simp [ErrPutAHandler] at hhead
    | ok fh =>
      intro hcontra
      exact Except.noConfusion hcontra

/-- C4: an empty handler list fails with the missing-handler error and
registers no route, and a non-empty list never produces that error; a
non-normalizable element among the middleware fails the whole batch with an
error naming its zero-based position, a non-normalizable last element is
reported as the final handler instead; on success the last element becomes
the terminal handler and all preceding elements, in order, the
middleware. -/
theorem registerHandlers_spec :
    (registerHandlers [] = .error ErrPutAHandler
      ∧ ∀ (routes : List Route) (method pat : String),
          registerRouteModel routes method pat [] = .error ErrPutAHandler)
    ∧ (∀ (v : HVal) (vs : List HVal),
        registerHandlers (v :: vs) ≠ .error ErrPutAHandler)
    ∧ (∀ (pre : List HVal) (t : String) (post : List HVal),
        (∀ v ∈ pre, HVal.recognized v = true) → post ≠ [] →
        registerHandlers (pre ++ .other t :: post)
          = .error ("middleware at position " ++ toString pre.length ++ ": "
              ++ invalidHandlerMsg t))
    ∧ (∀ (pre : List HVal) (t : String),
        (∀ v ∈ pre, HVal.recognized v = true) →
        registerHandlers (pre ++ [.other t])
          = .error ("final handler: " ++ invalidHandlerMsg t))
    ∧ (∀ (v : HVal) (vs : List HVal),
        (∀ w ∈ v :: vs, HVal.recognized w = true) →
        registerHandlers (v :: vs)
          = .ok (((v :: vs).getLast (List.cons_ne_nil v vs)).canon,
              (v :: vs).dropLast.map HVal.canon)) :=
  ⟨⟨rfl, fun _ _ _ => rfl⟩,
   registerHandlers_cons_ne_missing,
   registerHandlers_mid_err,
   registerHandlers_final_err,
   registerHandlers_all_ok⟩

/-- Witness for C4 at concrete handler batches. -/
theorem registerHandlers_spec_witness :
    registerRouteModel [] "GET" "/x" [] = .error ErrPutAHandler
    ∧ registerHandlers [.canonical hOk] ≠ .error ErrPutAHandler
    ∧ registerHandlers ([.canonical hOk] ++ .other "string" :: [.canonical hOk])
        = .error ("middleware at position 1: " ++ invalidHandlerMsg "string")
    ∧ registerHandlers ([.canonical hOk] ++ [.other "string"])
        = .error ("final handler: " ++ invalidHandlerMsg "string")
    ∧ registerHandlers (HVal.canonical hOk :: [HVal.ctxFun hCtxOk])
        = .ok (((HVal.canonical hOk :: [HVal.ctxFun hCtxOk]).getLast
              (List.cons_ne_nil _ _)).canon,
            (HVal.canonical hOk :: [HVal.ctxFun hCtxOk]).dropLast.map HVal.canon) := by
  refine ⟨registerHandlers_spec.1.2 [] "GET" "/x",
    registerHandlers_spec.2.1 (.canonical hOk) [],
    ?_, ?_, ?_⟩
  · have := registerHandlers_spec.2.2.1 [.canonical hOk] "string" [.canonical hOk]
      (by simp [HVal.recognized]) (by simp)
    simpa using this
  · exact registerHandlers_spec.2.2.2.1 [.canonical hOk] "string"
      (by simp [HVal.recognized])
  · exact registerHandlers_spec.2.2.2.2 (.canonical hOk) [.ctxFun hCtxOk]
      (by simp [HVal.recognized])

/-! ## Route groups: C7, C1, C2 -/

theorem nestGroups_middlewares (g : RouteGroup) (specs : List (String × List HVal)) :
    (nestGroups g specs).middlewares
      = g.middlewares ++ (specs.map Prod.snd).flatten := by
  induction specs generalizing g with
  | nil => simp [nestGroups]
  | cons s rest ih =>
    cases s with
    | mk p ms => simp [nestGroups, ih, RouteGroup.Group, List.append_assoc]

/-- C7: a group built by `Group` has its parent's middleware chain followed by
the newly supplied middlewares, its base path is the parent's base joined
with the relative path, and iterating `Group` to arbitrary depth yields the
concatenation of every level's additions onto the original chain; the parent
value is never modified (group creation is pure construction). -/
theorem group_chain_composition :
    (∀ (g : RouteGroup) (bp : String) (ms : List HVal),
        (g.Group bp ms).middlewares = g.middlewares ++ ms
        ∧ (g.Group bp ms).basePath = g.fullPath bp)
    ∧ (∀ (g : RouteGroup) (specs : List (String × List HVal)),
        (nestGroups g specs).middlewares
          = g.middlewares ++ (specs.map Prod.snd).flatten) :=
  ⟨fun _ _ _ => ⟨rfl, rfl⟩, nestGroups_middlewares⟩

/-- C1: for a group nested to arbitrary depth below the root server, every
per-verb registration delivers to the root server the ancestors' middleware
slices in outer-to-inner order followed by the handlers supplied at the
call, and the last delivered element is the last supplied handler (the
registered terminal handler). -/
theorem group_registration_chain (base : String) (rootMs : List HVal)
    (specs : List (String × List HVal)) (path : String) (hs : List HVal)
    (hne : hs ≠ []) :
    ((nestGroups (Server.Group base rootMs) specs).Get path hs).handlers
        = rootMs ++ (specs.map Prod.snd).flatten ++ hs
    ∧ ((nestGroups (Server.Group base rootMs) specs).Get path hs).handlers.getLast?
        = hs.getLast?
    ∧ ((nestGroups (Server.Group base rootMs) specs).Post path hs).handlers
        = rootMs ++ (specs.map Prod.snd).flatten ++ hs
    ∧ ((nestGroups (Server.Group base rootMs) specs).Post path hs).handlers.getLast?
        = hs.getLast?
    ∧ ((nestGroups (Server.Group base rootMs) specs).Put path hs).handlers
        = rootMs ++ (specs.map Prod.snd).flatten ++ hs
    ∧ ((nestGroups (Server.Group base rootMs) specs).Put path hs).handlers.getLast?
        = hs.getLast?
    ∧ ((nestGroups (Server.Group base rootMs) specs).Patch path hs).handlers
        = rootMs ++ (specs.map Prod.snd).flatten ++ hs
    ∧ ((nestGroups (Server.Group base rootMs) specs).Patch path hs).handlers.getLast?
        = hs.getLast?
    ∧ ((nestGroups (Server.Group base rootMs) specs).Delete path hs).handlers
        = rootMs ++ (specs.map Prod.snd).flatten ++ hs
    ∧ ((nestGroups (Server.Group base rootMs) specs).Delete path hs).handlers.getLast?
        = hs.getLast? := by
  have hmid : (nestGroups (Server.Group base rootMs) specs).middlewares
      = rootMs ++ (specs.map Prod.snd).flatten :=
    nestGroups_middlewares (Server.Group base rootMs) specs
  have hhandlers : ∀ rc : RouteCall,
      rc.handlers = (nestGroups (Server.Group base rootMs) specs).middlewares ++ hs →
      rc.handlers = rootMs ++ (specs.map Prod.snd).flatten ++ hs
      ∧ rc.handlers.getLast? = hs.getLast? := by
    intro rc hrc
    constructor
    · rw [hrc, hmid]
    · rw [hrc]
      exact List.getLast?_append_of_ne_nil _ hne
  exact ⟨(hhandlers _ rfl).1, (hhandlers _ rfl).2, (hhandlers _ rfl).1,
    (hhandlers _ rfl).2, (hhandlers _ rfl).1, (hhandlers _ rfl).2,
    (hhandlers _ rfl).1, (hhandlers _ rfl).2, (hhandlers _ rfl).1,
    (hhandlers _ rfl).2⟩

/-- Witness for C1 at a concrete two-level nesting. -/
theorem group_registration_chain_witness :
    ([HVal.ctxFun hCtxOk] : List HVal) ≠ []
    ∧ ((nestGroups (Server.Group "/account" [.canonical hOk])
          [("/profile", [.canonical hFail])]).Get "/:name" [.ctxFun hCtxOk]).handlers
        = [HVal.canonical hOk] ++ ([("/profile", [HVal.canonical hFail])].map Prod.snd).flatten
            ++ [HVal.ctxFun hCtxOk] := by
  refine ⟨by simp, ?_⟩
  exact (group_registration_chain "/account" [.canonical hOk]
    [("/profile", [.canonical hFail])] "/:name" [.ctxFun hCtxOk] (by simp)).1

/-- C2 as stated is false on the code: `RouteGroup.Route` creates the new
group through the root server's `Group` with no middleware arguments, so a
parent with a non-empty chain yields a child with an empty one. -/
theorem route_no_inherit_counterexample :
    ¬ ((RouteGroup.Route ⟨"/a", [HVal.canonical hOk]⟩ "/b").middlewares
        = (RouteGroup.mk "/a" [HVal.canonical hOk]).middlewares) := by
  intro h
  simp [RouteGroup.Route, Server.Group] at h

/-- C2 amended: `g.Route(basePath, fn)` hands `fn` a group whose base path is
g's base path joined with `basePath` and whose middleware chain is empty —
the parent's middleware is not inherited. -/
theorem route_scoped_group (g : RouteGroup) (bp : String) :
    (g.Route bp).basePath = g.fullPath bp ∧ (g.Route bp).middlewares = [] :=
  ⟨rfl, rfl⟩

/-! ## Parameter binding: C10 and C8 -/

theorem bindFields_nil_params : ∀ fields : List Field, bindFields fields [] = (fields, none)
  | [] => rfl
  | f :: fs => by
    have ih := bindFields_nil_params fs
    simp [bindFields, lookupParam, ih]

/-- C10: when the translated registered pattern does not match the request
path, `ParamsParser` succeeds and leaves every destination field
unchanged. -/
theorem ParamsParser_no_match (pat path : String) (fields : List Field)
    (h : findMatchFrom (tokenize pat) path.data = none) :
    ParamsParser pat path fields = (fields, none) := by
  unfold ParamsParser
  simp only [h]
  exact bindFields_nil_params fields

/-- Witness for C10: a pattern that matches nowhere in the request path. -/
theorem ParamsParser_no_match_witness :
    findMatchFrom (tokenize "/a/:x") "/b".data = none
    ∧ ParamsParser "/a/:x" "/b" [⟨"X", "x", true, .int, .vint 0⟩]
        = ([⟨"X", "x", true, .int, .vint 0⟩], none) :=
  ⟨by decide, ParamsParser_no_match "/a/:x" "/b" _ (by decide)⟩

theorem bindFields_all_str : ∀ (fields : List Field) (params : Captures),
    (∀ f ∈ fields, f.kind = GoKind.str) →
    bindFields fields params
      = (fields.map (fun f =>
          match lookupParam params (if f.paramTag = "" then f.name else f.paramTag) with
          | some v => if f.canSet then { f with value := FieldVal.vstr v } else f
          | none => f), none)
  | [], _, _ => rfl
  | f :: fs, params, h => by
    have hf : f.kind = GoKind.str := h f (by simp)
    have ih := bindFields_all_str fs params (fun w hw => h w (by simp [hw]))
    unfold bindFields
    cases hl : lookupParam params (if f.paramTag = "" then f.name else f.paramTag) with
    | none => simp [hl, ih]
    | some v =>
      by_cases hcs : f.canSet
      · simp [hl, hcs, hf, coerceParam, ih]
      · simp [hl, hcs, ih]

/-- C8: whenever the translated pattern matches the percent-decoded request
path, every string destination field whose `param` tag (or, absent a tag,
declared name) names a captured segment is set to that segment's matched
value when settable, and every field with no corresponding captured segment
is left untouched; the parse succeeds. -/
theorem ParamsParser_binding (pat rawPath : String) (fields : List Field)
    (caps : Captures)
    (hm : findMatchFrom (tokenize pat) (percentDecode rawPath).data = some caps)
    (hstr : ∀ f ∈ fields, f.kind = GoKind.str) :
    ParamsParser pat (percentDecode rawPath) fields
      = (fields.map (fun f =>
          match lookupParam (buildParams caps)
              (if f.paramTag = "" then f.name else f.paramTag) with
          | some v => if f.canSet then { f with value := FieldVal.vstr v } else f
          | none => f), none) := by
  unfold ParamsParser
  simp only [hm]
  exact bindFields_all_str fields (buildParams caps) hstr

/-- Witness for C8: registering `/account/:name` and requesting
`/account/Ann%20Lee` binds the field tagged `name` to `Ann Lee` and leaves
the unrelated field untouched. -/
theorem ParamsParser_binding_witness :
    findMatchFrom (tokenize "/account/:name") (percentDecode "/account/Ann%20Lee").data
      = some [("name", "Ann Lee")]
    ∧ ParamsParser "/account/:name" (percentDecode "/account/Ann%20Lee")
        [⟨"Name", "name", true, .str, .vstr ""⟩, ⟨"Other", "", true, .str, .vstr "keep"⟩]
      = ([⟨"Name", "name", true, .str, .vstr "Ann Lee"⟩,
          ⟨"Other", "", true, .str, .vstr "keep"⟩], none) := by
  refine ⟨by decide, ?_⟩
  rw [ParamsParser_binding "/account/:name" "/account/Ann%20Lee"
    [⟨"Name", "name", true, .str, .vstr ""⟩, ⟨"Other", "", true, .str, .vstr "keep"⟩]
    [("name", "Ann Lee")] (by decide) (by decide)]
  decide

/-! ## Server error envelope: C9 -/

/-- C9 as stated is false on the code: a handler error tagged as a server
error with a content type other than `application/json` is not serialized as
the JSON envelope; it goes through `http.Error` with the raw message. -/
theorem serverError_nonjson_counterexample :
    (httpHandlerOnError (some (.server ⟨404, "text/plain", some "boom"⟩))
        newRecorder).body ≠ jsonErrBody "boom" := by
  decide

/-- C9 amended: a tagged server error with content type `application/json`
and a status of at least 100 is written once as the `{"err": msg}` envelope
with its own status code and content type; a tagged error with any other
content type is written once with its own status code and the raw message
(plus newline) as plain text; an untagged handler error is written once with
status 500 and the raw message (plus newline); each case writes exactly one
response. -/
theorem handler_error_responses (msg : String) (status : Int) :
    (100 ≤ status →
      httpHandlerOnError (some (.server ⟨status, "application/json", some msg⟩))
          newRecorder
        = ⟨status, true, "application/json", jsonErrBody msg, 1⟩)
    ∧ (∀ ct : String, ct ≠ "application/json" →
        httpHandlerOnError (some (.server ⟨status, ct, some msg⟩)) newRecorder
          = ⟨status, true, "text/plain; charset=utf-8", msg ++ "\n", 1⟩)
    ∧ httpHandlerOnError (some (.plain msg)) newRecorder
        = ⟨500, true, "text/plain; charset=utf-8", msg ++ "\n", 1⟩ := by
  refine ⟨?_, ?_, ?_⟩
  · intro h
    simp [httpHandlerOnError, ServerError.serveHTTP, setContentType, writeHeader,
      writeBody, newRecorder, h]
  · intro ct hct
    simp [httpHandlerOnError, ServerError.serveHTTP, hct, setContentType,
      httpErrorWrite, writeHeader, writeBody, newRecorder]
  · simp [httpHandlerOnError, httpErrorWrite, setContentType, writeHeader,
      writeBody, newRecorder]

/-- Witness for C9 at concrete error values. -/
theorem handler_error_responses_witness :
    httpHandlerOnError (some (.server ⟨404, "application/json", some "not found"⟩))
        newRecorder
      = ⟨404, true, "application/json", jsonErrBody "not found", 1⟩
    ∧ httpHandlerOnError (some (.server ⟨404, "text/plain", some "boom"⟩)) newRecorder
      = ⟨404, true, "text/plain; charset=utf-8", "boom\n", 1⟩
    ∧ httpHandlerOnError (some (.plain "oops")) newRecorder
      = ⟨500, true, "text/plain; charset=utf-8", "oops\n", 1⟩ :=
  ⟨(handler_error_responses "not found" 404).1 (by decide),
   (handler_error_responses "boom" 404).2.1 "text/plain" (by decide),
   (handler_error_responses "oops" 500).2.2⟩

end Nine
